import Mathlib

/-!
Verification development for the rag-backend repository.

The Python sources under `app/` are shallowly embedded as executable Lean
definitions: pure functions become Lean functions, the vector store and the
record manager become explicit state (`SysState`), fallible collaborator
calls become `Except`-valued parameters or boolean failure flags, and the
lazy chunk generator becomes a list.
-/

namespace RagBackend

/-- A Python metadata value as it occurs in this code base: a string or an
integer (the only kinds the sources ever store in chunk metadata). -/
inductive MetaVal where
  | str : String → MetaVal
  | num : Nat → MetaVal
deriving DecidableEq, Repr

/-- A Python dict used as chunk metadata, embedded as an association list
with the usual first-occurrence lookup semantics. -/
abbrev Metadata := List (String × MetaVal)

/-- `m[k]` lookup / `m.get(k)` on a metadata dict. -/
def metaGet : Metadata → String → Option MetaVal
  | [], _ => none
  | (k1, v) :: rest, k => if k1 = k then some v else metaGet rest k

/-- `m[k] = v` assignment on a metadata dict: replaces the value of an
existing key in place, otherwise appends the new binding. -/
def metaSet : Metadata → String → MetaVal → Metadata
  | [], k, v => [(k, v)]
  | (k1, v1) :: rest, k, v =>
    if k1 = k then (k, v) :: rest else (k1, v1) :: metaSet rest k v

/-- `m.setdefault(k, v)`: inserts `v` under `k` only when `k` is absent. -/
def metaSetdefault (m : Metadata) (k : String) (v : MetaVal) : Metadata :=
  match metaGet m k with
  | some _ => m
  | none => metaSet m k v

theorem metaGet_metaSet_self (m : Metadata) (k : String) (v : MetaVal) :
    metaGet (metaSet m k v) k = some v := by
  induction m with
  | nil => simp [metaSet, metaGet]
  | cons kv rest ih =>
    obtain ⟨k1, v1⟩ := kv
    by_cases h : k1 = k
    · simp [metaSet, h, metaGet]
    · simp [metaSet, h, metaGet, ih]

theorem metaGet_metaSet_ne (m : Metadata) (k k2 : String) (v : MetaVal)
    (h : k2 ≠ k) : metaGet (metaSet m k v) k2 = metaGet m k2 := by
  induction m with
  | nil =>
    simp only [metaSet, metaGet]
    rw [if_neg (fun h2 => h h2.symm)]
  | cons kv rest ih =>
    obtain ⟨k1, v1⟩ := kv
    by_cases h1 : k1 = k
    · subst h1
      simp only [metaSet, if_pos rfl, metaGet]
      rw [if_neg (fun h2 => h h2.symm), if_neg (fun h2 => h h2.symm)]
    · simp only [metaSet, if_neg h1, metaGet]
      by_cases h2 : k1 = k2
      · rw [if_pos h2, if_pos h2]
      · rw [if_neg h2, if_neg h2, ih]

theorem metaGet_metaSetdefault_absent (m : Metadata) (k : String) (v : MetaVal)
    (h : metaGet m k = none) : metaGet (metaSetdefault m k v) k = some v := by
  simp [metaSetdefault, h, metaGet_metaSet_self]

theorem metaGet_metaSetdefault_ne (m : Metadata) (k k2 : String) (v : MetaVal)
    (h : k2 ≠ k) : metaGet (metaSetdefault m k v) k2 = metaGet m k2 := by
  unfold metaSetdefault
  cases metaGet m k with
  | none => simp [metaGet_metaSet_ne m k k2 v h]
  | some v1 => rfl

/-- A langchain `Document`: page content plus a metadata dict.  Both the
loader output and the split chunks have this shape. -/
structure Doc where
  page_content : String
  metadata : Metadata
deriving DecidableEq, Repr

/-- The deterministic identity of an indexed chunk, derived from chunk
content and source (spec §3 IndexKey; the concrete hash is an injective
implementation detail, so the pair itself is used). -/
abbrev IndexKey := String × String

/-- The `source` metadata of a chunk as the indexing layer reads it
(`source_id_key="source"`). -/
def sourceOf (c : Doc) : String :=
  match metaGet c.metadata "source" with
  | some (.str s) => s
  | some (.num n) => toString n
  | none => ""

/-- IndexKey derivation from chunk content + source. -/
def keyOf (c : Doc) : IndexKey := (c.page_content, sourceOf c)

/-- A vector-store entry: id (the IndexKey), the `source` metadata it was
stored with, and its text. -/
structure VecEntry where
  id : IndexKey
  source : String
  text : String
deriving DecidableEq, Repr

/-- A record-manager row: an IndexKey grouped under a source id. -/
structure RMRecord where
  key : IndexKey
  group : String
deriving DecidableEq, Repr

/-- The mutable state the indexing pipeline acts on: the Chroma collection
and the SQL record manager. -/
structure SysState where
  vs : List VecEntry
  rm : List RMRecord
deriving DecidableEq, Repr

/-- Well-formedness the pipeline maintains: a vector entry's `source`
metadata is the source component of its id, and a record's group is the
source component of its key. -/
def WfState (st : SysState) : Prop :=
  (∀ e ∈ st.vs, e.source = e.id.2) ∧ (∀ r ∈ st.rm, r.group = r.key.2)

instance (st : SysState) : Decidable (WfState st) := by
  unfold WfState
  infer_instance

/-! ### Document loader (`app/core/indexing.py`, `load_documents_lazy`) -/

/-- ASCII lowering of one character (`str.lower` restricted to the ASCII
range, which is all the extension table needs). -/
def asciiLower (c : Char) : Char :=
  if 'A'.toNat ≤ c.toNat ∧ c.toNat ≤ 'Z'.toNat then Char.ofNat (c.toNat + 32)
  else c

/-- `.lower()` on a string. -/
def strLower (s : String) : String := String.mk (s.toList.map asciiLower)

/-- Helper for `splitOnChar`: the accumulator holds the current segment
reversed. -/
def splitOnCharAux (sep : Char) : List Char → List Char → List String
  | [], acc => [String.mk acc.reverse]
  | c :: cs, acc =>
    if c = sep then String.mk acc.reverse :: splitOnCharAux sep cs []
    else splitOnCharAux sep cs (c :: acc)

/-- `.split(sep)` for a one-character separator. -/
def splitOnChar (sep : Char) (s : String) : List String :=
  splitOnCharAux sep s.toList []

/-- Lexicographic order on character lists by code point. -/
def charListLe : List Char → List Char → Bool
  | [], _ => true
  | _ :: _, [] => false
  | x :: xs, y :: ys =>
    if x = y then charListLe xs ys else decide (x.toNat < y.toNat)

/-- Lexicographic string order (code-point order, as Python compares
paths). -/
def strLe (a b : String) : Bool := charListLe a.toList b.toList

/-- `pathlib.PurePath.suffix`: the extension from the final dot, empty when
the name has no dot, starts with its only dot, or ends in a dot. -/
def pathSuffix (name : String) : String :=
  let cs := name.toList
  match ((List.range cs.length).filter (fun i => cs.getD i ' ' = '.')).getLast? with
  | some i => if 0 < i ∧ i < cs.length - 1 then String.mk (cs.drop i) else ""
  | none => ""

instance {ε α : Type} [DecidableEq ε] [DecidableEq α] :
    DecidableEq (Except ε α) := fun x y =>
  match x, y with
  | .ok a, .ok b =>
    if h : a = b then isTrue (by rw [h])
    else isFalse (fun hc => h (Except.ok.inj hc))
  | .ok _, .error _ => isFalse (fun hc => Except.noConfusion hc)
  | .error _, .ok _ => isFalse (fun hc => Except.noConfusion hc)
  | .error e, .error f =>
    if h : e = f then isTrue (by rw [h])
    else isFalse (fun hc => h (Except.error.inj hc))

/-- A directory entry as `load_documents_lazy` observes it: its name, whether
it is a subdirectory, the ISO-8601 rendering of its mtime, and the outcome of
running the registered loader on it (`Except.error` embeds a raised
exception). -/
structure FsFile where
  name : String
  isDir : Bool
  mtimeIso : String
  loadResult : Except Unit (List Doc)
deriving DecidableEq, Repr

/-- Insert a file into a name-sorted list (helper for `sortFiles`). -/
def insertByName (f : FsFile) : List FsFile → List FsFile
  | [] => [f]
  | g :: gs => if strLe f.name g.name then f :: g :: gs else g :: insertByName f gs

/-- `sorted(data_dir.iterdir())`: lexicographic order on the entry names. -/
def sortFiles : List FsFile → List FsFile
  | [] => []
  | f :: fs => insertByName f (sortFiles fs)

/-- The extensions registered in `LOADER_MAP`. -/
def LOADER_EXTS : List String := [".txt", ".pdf", ".csv", ".md"]

/-- The per-chunk metadata stamping loop of `load_documents_lazy`: assign
`source`, default `page` to 0, then assign `file_type`, `created_at`,
`category` and `department`. -/
def stampChunk (name file_type created_at category department : String)
    (c : Doc) : Doc :=
  { c with metadata :=
      let m := metaSet c.metadata "source" (.str name)
      let m := metaSetdefault m "page" (.num 0)
      let m := metaSet m "file_type" (.str file_type)
      let m := metaSet m "created_at" (.str created_at)
      let m := metaSet m "category" (.str category)
      metaSet m "department" (.str department) }

/-- `load_documents_lazy`: `none` for a missing data directory (the function
returns immediately), otherwise the directory listing.  `split` embeds
`text_splitter.split_documents` and `infer` embeds `_infer_metadata` (which
never raises: it falls back to defaults internally), both collaborator
functions of this routine. -/
def load_documents_lazy (dir : Option (List FsFile))
    (split : List Doc → List Doc) (infer : String → String × String) :
    List Doc :=
  match dir with
  | none => []
  | some files =>
    (sortFiles files).flatMap (fun f =>
      if f.isDir || !(LOADER_EXTS.contains (strLower (pathSuffix f.name))) then []
      else
        match f.loadResult with
        | .error _ => []
        | .ok docs =>
          let file_type := strLower (pathSuffix f.name)
          let created_at := f.mtimeIso
          let full_text := String.intercalate "\n" (docs.map (·.page_content))
          let inferred := infer full_text
          (split docs).map
            (stampChunk f.name file_type created_at inferred.1 inferred.2))

/-! ### Incremental indexing (`app/core/indexing.py`, `run_indexing`) -/

/-- The result dict of one incremental index step, as `run_indexing` reads it
(`result.get("num_added", 0)`, `result.get("num_updated", 0)`; the other two
counters are carried but unused). -/
structure IndexResult where
  num_added : Nat
  num_updated : Nat
  num_skipped : Nat
  num_deleted : Nat
deriving DecidableEq, Repr

/-- The dict returned by `run_indexing`. -/
structure RunResult where
  total_indexed : Nat
  errors : Nat
deriving DecidableEq, Repr

/-- The injected incremental index collaborator
(`index(batch, record_manager, vectorstore, ...)`): acts on the shared
state and either returns a result dict with the new state or raises. -/
abbrev IndexStep := List Doc → SysState → Except Unit (IndexResult × SysState)

/-- The batch loop of `run_indexing`: accumulate chunks, fire the step at
100, count a failed batch instead of propagating, then flush the final
partial batch the same way. -/
def run_indexing_loop (step : IndexStep) :
    List Doc → List Doc → SysState → Nat → Nat → RunResult × SysState
  | [], batch, st, total, errors =>
    if batch.isEmpty then (⟨total, errors⟩, st)
    else
      match step batch st with
      | .ok (r, st1) => (⟨total + (r.num_added + r.num_updated), errors⟩, st1)
      | .error _ => (⟨total, errors + 1⟩, st)
  | doc :: rest, batch, st, total, errors =>
    let batch1 := batch ++ [doc]
    if batch1.length ≥ 100 then
      match step batch1 st with
      | .ok (r, st1) =>
        run_indexing_loop step rest [] st1
          (total + (r.num_added + r.num_updated)) errors
      | .error _ => run_indexing_loop step rest [] st total (errors + 1)
    else run_indexing_loop step rest batch1 st total errors

/-- `run_indexing` applied to an already-materialised chunk stream. -/
def run_indexing_chunks (chunks : List Doc) (step : IndexStep)
    (st : SysState) : RunResult × SysState :=
  run_indexing_loop step chunks [] st 0 0

/-- `run_indexing`: consume `load_documents_lazy` in batches of 100 against
the record-manager/vector-store pair and return `{total_indexed, errors}`. -/
def run_indexing (dir : Option (List FsFile)) (split : List Doc → List Doc)
    (infer : String → String × String) (step : IndexStep) (st : SysState) :
    RunResult × SysState :=
  run_indexing_chunks (load_documents_lazy dir split infer) step st

/-- The consecutive batches the loop submits: groups of 100 chunks plus a
final partial group. -/
def chunksOf100 : List Doc → List (List Doc)
  | [] => []
  | d :: l => (d :: l).take 100 :: chunksOf100 ((d :: l).drop 100)
termination_by l => l.length
decreasing_by
  simp only [List.length_drop, List.length_cons]
  omega

/-- Reference fold: process a list of ready-made batches in order,
accumulating the indexed total and the error count. -/
def processBatches (step : IndexStep) :
    List (List Doc) → SysState → Nat → Nat → RunResult × SysState
  | [], st, total, errors => (⟨total, errors⟩, st)
  | b :: bs, st, total, errors =>
    match step b st with
    | .ok (r, st1) =>
      processBatches step bs st1 (total + (r.num_added + r.num_updated)) errors
    | .error _ => processBatches step bs st total (errors + 1)

/-- The per-batch outcome trace of a run: one `Except` per submitted batch,
with the state threaded through the successful ones. -/
def batchOutcomes (step : IndexStep) :
    List (List Doc) → SysState → List (Except Unit IndexResult)
  | [], _ => []
  | b :: bs, st =>
    match step b st with
    | .ok (r, st1) => .ok r :: batchOutcomes step bs st1
    | .error e => .error e :: batchOutcomes step bs st

/-- Whether the record manager already associates this chunk's key with its
source (spec §4.3 step 2). -/
def hasRecord (rm : List RMRecord) (c : Doc) : Bool :=
  rm.any (fun r => r.group == sourceOf c && r.key == keyOf c)

/-- The distinct keys of a batch that the record manager does not yet hold
for their source: the ones to embed and upsert (spec §4.3 step 3). -/
def newKeysOf (batch : List Doc) (rm : List RMRecord) : List IndexKey :=
  ((batch.filter (fun c => !(hasRecord rm c))).map keyOf).dedup

/-- Stale-chunk cleanup predicate for vector entries: keep an entry unless
its source was touched by this batch and its id is absent from the batch's
key set (spec §4.3 step 5). -/
def cleanupKeepE (sources : List String) (keys : List IndexKey)
    (e : VecEntry) : Bool :=
  !(sources.contains e.source && !(keys.contains e.id))

/-- Stale-chunk cleanup predicate for record-manager rows. -/
def cleanupKeepR (sources : List String) (keys : List IndexKey)
    (r : RMRecord) : Bool :=
  !(sources.contains r.group && !(keys.contains r.key))

/-- Modelled from the spec: the incremental index step (langchain's
`index(..., cleanup="incremental", source_id_key="source")`) is not part of
this repository's sources, so it is embedded from spec §4.3: derive each
chunk's IndexKey from content + source, compare against the keys the record
manager already associates with that source, upsert only new keys together
with their records, then delete entries and records of the sources touched
by this batch whose keys are absent from the batch's key set. -/
def incremental_index (batch : List Doc) (st : SysState) :
    IndexResult × SysState :=
  let keys := batch.map keyOf
  let newKeys := newKeysOf batch st.rm
  let vs1 := st.vs.filter (fun e => !(newKeys.contains e.id)) ++
    newKeys.map (fun k => ⟨k, k.2, k.1⟩)
  let rm1 := st.rm.filter (fun r => !(newKeys.contains r.key)) ++
    newKeys.map (fun k => ⟨k, k.2⟩)
  let sources := (batch.map sourceOf).dedup
  (⟨newKeys.length, 0, batch.length - newKeys.length,
      rm1.length - (rm1.filter (cleanupKeepR sources keys)).length⟩,
    ⟨vs1.filter (cleanupKeepE sources keys),
      rm1.filter (cleanupKeepR sources keys)⟩)

/-! ### Deletion (`app/core/indexing.py`, `delete_document`) -/

/-- Failure injection for the fallible external calls inside
`delete_document`: the two record-manager calls and the filesystem unlink,
plus whether the underlying file exists. -/
structure DeleteFlags where
  listKeysFails : Bool
  deleteKeysFails : Bool
  fileExists : Bool
  unlinkFails : Bool
deriving DecidableEq, Repr

/-- The dict returned by `delete_document`. -/
structure DeleteCounts where
  deleted_vectors : Nat
  deleted_records : Nat
deriving DecidableEq, Repr

/-- `delete_document`: (a) fetch and delete the Chroma entries whose
`source` metadata equals the filename; (b) fetch and delete the
record-manager keys grouped under the filename, catching any record-manager
exception; (c) unlink the file when it exists — an exception raised there
propagates (`Except.error`), after the store mutations already happened. -/
def delete_document (filename : String) (fl : DeleteFlags) (st : SysState) :
    Except Unit DeleteCounts × SysState :=
  let matchedIds := (st.vs.filter (fun e => e.source == filename)).map (·.id)
  let deleted_vectors := matchedIds.length
  let vs1 :=
    if matchedIds.isEmpty then st.vs
    else st.vs.filter (fun e => !(matchedIds.contains e.id))
  let rmStage : Nat × List RMRecord :=
    if fl.listKeysFails then (0, st.rm)
    else
      let keys := (st.rm.filter (fun r => r.group == filename)).map (·.key)
      if keys.isEmpty then (0, st.rm)
      else if fl.deleteKeysFails then (keys.length, st.rm)
      else (keys.length, st.rm.filter (fun r => !(keys.contains r.key)))
  let st1 : SysState := ⟨vs1, rmStage.2⟩
  if fl.fileExists && fl.unlinkFails then (.error (), st1)
  else (.ok ⟨deleted_vectors, rmStage.1⟩, st1)

/-! ### Delete endpoint (`app/routers/v1.py`, `delete_document_endpoint`) -/

/-- Lexical `Path.resolve()` over a path given as components: `.` and empty
segments are dropped and `..` removes the last resolved component (symlinks
are outside this model). -/
def resolvePath (comps : List String) : List String :=
  comps.foldl
    (fun acc c =>
      if c = "" ∨ c = "." then acc
      else if c = ".." then acc.dropLast
      else acc ++ [c])
    []

/-- The HTTP outcome of the delete endpoint: `clientError` embeds the 400
and 404 `HTTPException`s, `serverError` the 500 one. -/
inductive EndpointResult where
  | clientError (code : Nat)
  | ok (deleted_vectors deleted_records : Nat)
  | serverError
deriving DecidableEq, Repr

/-- What a request to the delete endpoint produced: the response, the
resulting store state, and whether `delete_document` was invoked at all. -/
structure EndpointOutcome where
  response : EndpointResult
  state : SysState
  deleteInvoked : Bool
deriving DecidableEq, Repr

/-- `delete_document_endpoint`: reject with 400 when the resolved target's
parent differs from the resolved data directory, with 404 when the file is
absent, otherwise run `delete_document` and map an exception to a 500. -/
def delete_document_endpoint (dataDir : List String) (filename : String)
    (fl : DeleteFlags) (fileOnDisk : Bool) (st : SysState) :
    EndpointOutcome :=
  let file_path := dataDir ++ splitOnChar '/' filename
  if (resolvePath file_path).dropLast ≠ resolvePath dataDir then
    ⟨.clientError 400, st, false⟩
  else if !fileOnDisk then ⟨.clientError 404, st, false⟩
  else
    match delete_document filename fl st with
    | (.ok c, st1) => ⟨.ok c.deleted_vectors c.deleted_records, st1, true⟩
    | (.error _, st1) => ⟨.serverError, st1, true⟩

/-! ### Retrieval and filtering (`app/core/rag.py`) -/

/-- A Chroma `where` document as built by `build_chroma_filter`: either a
single equality condition or a conjunction of them. -/
inductive ChromaWhere where
  | eq (field : String) (v : MetaVal)
  | and (conds : List ChromaWhere)

/-- `build_chroma_filter`: `None` (and the falsy empty dict) give no filter;
one entry passes through as its equality condition; several entries combine
under `$and`. -/
def build_chroma_filter (metadata_filter : Option (List (String × MetaVal))) :
    Option ChromaWhere :=
  match metadata_filter with
  | none => none
  | some m =>
    if m.isEmpty then none
    else
      let conditions := m.map (fun kv => ChromaWhere.eq kv.1 kv.2)
      match conditions with
      | [c] => some c
      | _ => some (.and conditions)

/-- `retrieve_documents`: build the filter and run the similarity search
with it.  `search` embeds `vectorstore.similarity_search`, which may raise
(`Except.error`). -/
def retrieve_documents
    (search : String → Nat → Option ChromaWhere → Except Unit (List Doc))
    (question : String) (k : Nat)
    (metadata_filter : Option (List (String × MetaVal))) :
    Except Unit (List Doc) :=
  search question k (build_chroma_filter metadata_filter)

/-! ### Answer generation (`app/core/rag.py`, `generate_answer_stream`) -/

/-- Render a metadata value the way a Python f-string would. -/
def renderVal : MetaVal → String
  | .str s => s
  | .num n => toString n

/-- `_format_context`: one block per retrieved chunk, blank-line
separated. -/
def formatContext (docs : List Doc) : String :=
  String.intercalate "\n\n" (docs.map (fun doc =>
    let source := renderVal ((metaGet doc.metadata "source").getD (.str "unknown"))
    let page := renderVal ((metaGet doc.metadata "page").getD (.num 0))
    "[ソース: " ++ source ++ ", ページ: " ++ page ++ "]\n" ++ doc.page_content))

/-- A chat message. -/
structure Msg where
  role : String
  content : String
deriving DecidableEq, Repr

/-- `SYSTEM_PROMPT.format(context=...)`. -/
def systemPrompt (context : String) : String :=
  "あなたはRAGアシスタントです。ドキュメントに基づいて質問に回答するアシスタントです。\n" ++
  "以下のコンテキスト情報を使用して、ユーザーの質問に正確に回答してください。\n" ++
  "コンテキストに情報がない場合は、「その情報は見つかりませんでした」と回答してください。\n\n" ++
  "コンテキスト:\n" ++ context ++ "\n"

/-- One event of the collaborator's token stream as `astream` delivers it:
a fragment, or an exception raised while awaiting the next fragment. -/
inductive GenEvent where
  | token (content : String)
  | genFail
deriving DecidableEq, Repr

/-- The sentinel fragment yielded by the `except` branch of
`generate_answer_stream`. -/
def errorSentinel : String := "[ERROR] 回答の生成中にエラーが発生しました。"

/-- The `async for` body of `generate_answer_stream`: relay non-empty
fragments as they arrive; a raised exception is caught by the surrounding
`try` and turns into one sentinel fragment, ending the stream. -/
def consumeStream : List GenEvent → List String
  | [] => []
  | .token c :: rest =>
    if c = "" then consumeStream rest else c :: consumeStream rest
  | .genFail :: _ => [errorSentinel]

/-- `generate_answer_stream`: retrieve, build the two-message exchange, and
relay the collaborator's stream; any exception inside the `try` (retrieval
included) yields the single sentinel fragment instead of propagating.
`llm` embeds `ChatOpenAI(...).astream`. -/
def generate_answer_stream (question : String) (k : Nat)
    (metadata_filter : Option (List (String × MetaVal)))
    (search : String → Nat → Option ChromaWhere → Except Unit (List Doc))
    (llm : List Msg → List GenEvent) : List String :=
  match retrieve_documents search question k metadata_filter with
  | .error _ => [errorSentinel]
  | .ok docs =>
    let context := formatContext docs
    let messages : List Msg :=
      [⟨"system", systemPrompt context⟩, ⟨"user", question⟩]
    consumeStream (llm messages)

/-! ### Helper lemmas -/

/-- The non-empty fragments relayed from a list of stream events. -/
def tokensOf : List GenEvent → List String
  | [] => []
  | .token c :: rest => if c = "" then tokensOf rest else c :: tokensOf rest
  | .genFail :: rest => tokensOf rest

theorem consumeStream_fail (pre post : List GenEvent)
    (h : GenEvent.genFail ∉ pre) :
    consumeStream (pre ++ .genFail :: post) = tokensOf pre ++ [errorSentinel] := by
  induction pre with
  | nil => rfl
  | cons e rest ih =>
    match e with
    | .token c =>
      have hrest : GenEvent.genFail ∉ rest := fun hm => h (List.mem_cons_of_mem _ hm)
      by_cases hc : c = ""
      · simp only [List.cons_append, consumeStream, tokensOf, if_pos hc]
        exact ih hrest
      · simp only [List.cons_append, consumeStream, tokensOf, if_neg hc,
          List.append_eq]
        rw [ih hrest]
    | .genFail => exact absurd (List.mem_cons_self _ _) h

theorem isPrefixOf_append_self (l t : List String) :
    l.isPrefixOf (l ++ t) = true := by
  induction l with
  | nil => simp [List.isPrefixOf]
  | cons a as ih => simp [List.isPrefixOf, ih]

theorem list_contains_iff {α} [BEq α] [LawfulBEq α] (l : List α) (a : α) :
    l.contains a = true ↔ a ∈ l := by
  simp [List.contains]

theorem filter_map_contains {α β} [BEq β] [LawfulBEq β] (l : List α)
    (p : α → Bool) (f : α → β)
    (hinj : ∀ a ∈ l, ∀ b ∈ l, f a = f b → p a = p b) :
    ∀ a ∈ l, ((l.filter p).map f).contains (f a) = p a := by
  intro a ha
  cases hp : p a with
  | true =>
    apply (list_contains_iff _ _).mpr
    exact List.mem_map_of_mem f (List.mem_filter.mpr ⟨ha, hp⟩)
  | false =>
    cases hc : ((l.filter p).map f).contains (f a) with
    | false => rfl
    | true =>
      obtain ⟨b, hbf, hfb⟩ := List.mem_map.mp ((list_contains_iff _ _).mp hc)
      obtain ⟨hbl, hpb⟩ := List.mem_filter.mp hbf
      rw [hinj b hbl a ha hfb, hp] at hpb
      exact hpb.symm

theorem filter_not_eq_self_of_filter_nil {α} (l : List α) (p : α → Bool)
    (h : l.filter p = []) : l.filter (fun a => !(p a)) = l := by
  apply List.filter_eq_self.mpr
  intro a ha
  have := List.filter_eq_nil_iff.mp h a ha
  simp only [Bool.not_eq_true] at this ⊢
  simp [this]

theorem mem_insertByName (f g : FsFile) (l : List FsFile) :
    g ∈ insertByName f l ↔ g = f ∨ g ∈ l := by
  induction l with
  | nil => simp [insertByName]
  | cons a l ih =>
    simp only [insertByName]
    split
    · simp [List.mem_cons]
    · simp only [List.mem_cons, ih]
      tauto

theorem mem_sortFiles (g : FsFile) (l : List FsFile) :
    g ∈ sortFiles l ↔ g ∈ l := by
  induction l with
  | nil => simp [sortFiles]
  | cons a l ih => simp [sortFiles, mem_insertByName, ih]

theorem stampChunk_source (n ft ca cat dept : String) (c : Doc) :
    metaGet (stampChunk n ft ca cat dept c).metadata "source" =
      some (.str n) := by
  unfold stampChunk
  dsimp only
  rw [metaGet_metaSet_ne _ _ _ _ (by decide),
    metaGet_metaSet_ne _ _ _ _ (by decide),
    metaGet_metaSet_ne _ _ _ _ (by decide),
    metaGet_metaSet_ne _ _ _ _ (by decide),
    metaGet_metaSetdefault_ne _ _ _ _ (by decide),
    metaGet_metaSet_self]

theorem stampChunk_page_default (n ft ca cat dept : String) (c : Doc)
    (h : metaGet c.metadata "page" = none) :
    metaGet (stampChunk n ft ca cat dept c).metadata "page" =
      some (.num 0) := by
  unfold stampChunk
  dsimp only
  rw [metaGet_metaSet_ne _ _ _ _ (by decide),
    metaGet_metaSet_ne _ _ _ _ (by decide),
    metaGet_metaSet_ne _ _ _ _ (by decide),
    metaGet_metaSet_ne _ _ _ _ (by decide)]
  apply metaGet_metaSetdefault_absent
  rw [metaGet_metaSet_ne _ _ _ _ (by decide)]
  exact h

/-- Sum of `num_added + num_updated` over the successful outcomes. -/
def okTotal : List (Except Unit IndexResult) → Nat
  | [] => 0
  | .ok r :: rest => r.num_added + r.num_updated + okTotal rest
  | .error _ :: rest => okTotal rest

/-- Number of failed outcomes. -/
def failCount : List (Except Unit IndexResult) → Nat
  | [] => 0
  | .ok _ :: rest => failCount rest
  | .error _ :: rest => failCount rest + 1

theorem chunksOf100_of_ne_nil (l : List Doc) (h : l ≠ []) :
    chunksOf100 l = l.take 100 :: chunksOf100 (l.drop 100) := by
  rcases l with _ | ⟨d, l⟩
  · exact absurd rfl h
  · rw [chunksOf100]

theorem run_indexing_loop_eq_processBatches (step : IndexStep)
    (rest : List Doc) :
    ∀ (batch : List Doc) (st : SysState) (total errors : Nat),
      batch.length < 100 →
      run_indexing_loop step rest batch st total errors =
        processBatches step (chunksOf100 (batch ++ rest)) st total errors := by
  induction rest with
  | nil =>
    intro batch st total errors h
    rw [List.append_nil]
    rcases batch with _ | ⟨d, bs⟩
    · simp [run_indexing_loop, chunksOf100, processBatches]
    · rw [chunksOf100_of_ne_nil _ (by simp),
        List.take_of_length_le (by omega),
        List.drop_eq_nil_of_le (by omega)]
      simp only [run_indexing_loop, processBatches, List.isEmpty_cons,
        chunksOf100]
      cases hs : step (d :: bs) st with
      | ok p =>
        obtain ⟨r, st1⟩ := p
        simp [processBatches]
      | error e => simp [processBatches]
  | cons d rest ih =>
    intro batch st total errors h
    have happ : batch ++ d :: rest = (batch ++ [d]) ++ rest := by
      simp
    by_cases h100 : (batch ++ [d]).length ≥ 100
    · have h100e : (batch ++ [d]).length = 100 := by
        simp only [List.length_append, List.length_cons, List.length_nil] at h100 ⊢
        omega
      rw [happ, chunksOf100_of_ne_nil _ (by simp), ← h100e,
        List.take_left, List.drop_left]
      simp only [run_indexing_loop]
      rw [if_pos h100]
      simp only [processBatches]
      cases hs : step (batch ++ [d]) st with
      | ok p =>
        obtain ⟨r, st1⟩ := p
        have := ih [] st1 (total + (r.num_added + r.num_updated)) errors
          (by simp)
        simpa using this
      | error e =>
        have := ih [] st total (errors + 1) (by simp)
        simpa using this
    · have hlt : (batch ++ [d]).length < 100 := by omega
      rw [happ, ← ih (batch ++ [d]) st total errors hlt]
      simp only [run_indexing_loop]
      rw [if_neg h100]

theorem processBatches_spec (step : IndexStep) (bs : List (List Doc)) :
    ∀ (st : SysState) (total errors : Nat),
      (processBatches step bs st total errors).1 =
        ⟨total + okTotal (batchOutcomes step bs st),
         errors + failCount (batchOutcomes step bs st)⟩ := by
  induction bs with
  | nil => intro st total errors; simp [processBatches, batchOutcomes, okTotal, failCount]
  | cons b bs ih =>
    intro st total errors
    cases hs : step b st with
    | ok p =>
      obtain ⟨r, st1⟩ := p
      simp only [processBatches, batchOutcomes, hs]
      rw [ih]
      simp only [okTotal, failCount, RunResult.mk.injEq, and_true, true_and]
      omega
    | error e =>
      simp only [processBatches, batchOutcomes, hs]
      rw [ih]
      simp only [okTotal, failCount, RunResult.mk.injEq, and_true, true_and]
      omega

theorem batchOutcomes_length (step : IndexStep) (bs : List (List Doc)) :
    ∀ st : SysState, (batchOutcomes step bs st).length = bs.length := by
  induction bs with
  | nil => intro st; rfl
  | cons b bs ih =>
    intro st
    simp only [batchOutcomes]
    cases hs : step b st with
    | ok p =>
      obtain ⟨r, st1⟩ := p
      simp [ih]
    | error e => simp [ih]

theorem filter_idem {α} (p : α → Bool) (l : List α) :
    (l.filter p).filter p = l.filter p := by
  rw [List.filter_filter]
  exact List.filter_congr (fun a _ => Bool.and_self _)

/-- If every chunk of the batch is already recorded under its source and
the state is a fixed point of this batch's cleanup, the incremental index
step is a complete no-op: nothing added, nothing updated, nothing deleted,
state unchanged. -/
theorem incremental_index_of_recorded (batch : List Doc) (st : SysState)
    (h1 : ∀ c ∈ batch, hasRecord st.rm c = true)
    (hE : st.vs.filter
        (cleanupKeepE ((batch.map sourceOf).dedup) (batch.map keyOf)) = st.vs)
    (hR : st.rm.filter
        (cleanupKeepR ((batch.map sourceOf).dedup) (batch.map keyOf)) = st.rm) :
    incremental_index batch st = (⟨0, 0, batch.length, 0⟩, st) := by
  have hfil : batch.filter (fun c => !(hasRecord st.rm c)) = [] :=
    List.filter_eq_nil_iff.mpr (fun c hc => by simp [h1 c hc])
  have hnew : newKeysOf batch st.rm = [] := by
    simp [newKeysOf, hfil]
  unfold incremental_index
  dsimp only
  rw [hnew]
  have hv : st.vs.filter (fun e => !(([] : List IndexKey).contains e.id)) =
      st.vs :=
    List.filter_eq_self.mpr (fun a _ => rfl)
  have hrm : st.rm.filter (fun r => !(([] : List IndexKey).contains r.key)) =
      st.rm :=
    List.filter_eq_self.mpr (fun a _ => rfl)
  simp only [List.map_nil, List.append_nil, List.length_nil, Nat.sub_zero]
  rw [hv, hrm, hE, hR]
  simp

/-- After one incremental index step, every chunk of the batch is recorded
under its source, and the state is a fixed point of this batch's
cleanup. -/
theorem incremental_index_post (batch : List Doc) (st : SysState) :
    (∀ c ∈ batch, hasRecord (incremental_index batch st).2.rm c = true)
    ∧ (incremental_index batch st).2.vs.filter
        (cleanupKeepE ((batch.map sourceOf).dedup) (batch.map keyOf)) =
      (incremental_index batch st).2.vs
    ∧ (incremental_index batch st).2.rm.filter
        (cleanupKeepR ((batch.map sourceOf).dedup) (batch.map keyOf)) =
      (incremental_index batch st).2.rm := by
  refine ⟨?_, filter_idem _ _, filter_idem _ _⟩
  intro c hc
  have hkeymem : (batch.map keyOf).contains (keyOf c) = true :=
    (list_contains_iff _ _).mpr (List.mem_map_of_mem keyOf hc)
  unfold hasRecord
  rw [List.any_eq_true]
  by_cases h0 : hasRecord st.rm c = true
  · obtain ⟨r, hr, hpr⟩ := List.any_eq_true.mp h0
    rw [Bool.and_eq_true] at hpr
    obtain ⟨hprg, hprk⟩ := hpr
    have hpr : (r.group == sourceOf c && r.key == keyOf c) = true := by
      rw [Bool.and_eq_true]
      exact ⟨hprg, hprk⟩
    have hrkey : r.key = keyOf c := beq_iff_eq.mp hprk
    have hkeyne : keyOf c ∉ newKeysOf batch st.rm := by
      intro hmem
      simp only [newKeysOf, List.mem_dedup, List.mem_map] at hmem
      obtain ⟨c2, hc2f, hkey⟩ := hmem
      obtain ⟨hc2b, hnotrec⟩ := List.mem_filter.mp hc2f
      have hsrc : sourceOf c2 = sourceOf c := congrArg Prod.snd hkey
      have hrec2 : hasRecord st.rm c2 = true := by
        unfold hasRecord at h0 ⊢
        rw [hsrc, hkey]
        exact h0
      rw [hrec2] at hnotrec
      simp at hnotrec
    refine ⟨r, ?_, hpr⟩
    apply List.mem_filter.mpr
    refine ⟨List.mem_append_left _ (List.mem_filter.mpr ⟨hr, ?_⟩), ?_⟩
    · rw [hrkey]
      cases hcont : (newKeysOf batch st.rm).contains (keyOf c) with
      | false => rfl
      | true => exact absurd ((list_contains_iff _ _).mp hcont) hkeyne
    · unfold cleanupKeepR
      rw [hrkey, hkeymem]
      simp
  · have hmem : keyOf c ∈ newKeysOf batch st.rm := by
      simp only [newKeysOf, List.mem_dedup]
      refine List.mem_map_of_mem keyOf (List.mem_filter.mpr ⟨hc, ?_⟩)
      simp only [Bool.not_eq_true] at h0
      simp [h0]
    refine ⟨⟨keyOf c, (keyOf c).2⟩, ?_, ?_⟩
    · apply List.mem_filter.mpr
      constructor
      · exact List.mem_append_right _
          (List.mem_map_of_mem (fun k => (⟨k, k.2⟩ : RMRecord)) hmem)
      · unfold cleanupKeepR
        dsimp only
        rw [hkeymem]
        simp
    · dsimp only
      simp [keyOf]

/-- One incremental index step is idempotent: repeating the same batch on
the resulting state adds and updates nothing and leaves the state
unchanged. -/
theorem incremental_index_idempotent (batch : List Doc) (st : SysState) :
    incremental_index batch (incremental_index batch st).2 =
      (⟨0, 0, batch.length, 0⟩, (incremental_index batch st).2) := by
  obtain ⟨h1, hE, hR⟩ := incremental_index_post batch st
  exact incremental_index_of_recorded batch _ h1 hE hR

/-- When the whole chunk stream fits in a single batch (at most 100
chunks), re-running `run_indexing` over unchanged content IS a vector-store
no-op: the second run reports `total_indexed = 0` and leaves the stores
exactly as the first run did — the C5 failure needs a source split across
batches. -/
theorem run_indexing_single_batch_idempotent (dir : Option (List FsFile))
    (split : List Doc → List Doc) (infer : String → String × String)
    (st0 : SysState)
    (h : (load_documents_lazy dir split infer).length ≤ 100) :
    (run_indexing dir split infer (fun b s => .ok (incremental_index b s))
        (run_indexing dir split infer
          (fun b s => .ok (incremental_index b s)) st0).2).1.total_indexed = 0
    ∧ (run_indexing dir split infer (fun b s => .ok (incremental_index b s))
        (run_indexing dir split infer
          (fun b s => .ok (incremental_index b s)) st0).2).2 =
      (run_indexing dir split infer
        (fun b s => .ok (incremental_index b s)) st0).2 := by
  have hrun : ∀ st : SysState,
      run_indexing dir split infer (fun b s => .ok (incremental_index b s)) st =
        processBatches (fun b s => .ok (incremental_index b s))
          (chunksOf100 (load_documents_lazy dir split infer)) st 0 0 := by
    intro st
    unfold run_indexing run_indexing_chunks
    rw [run_indexing_loop_eq_processBatches _ _ [] st 0 0 (by simp),
      List.nil_append]
  rcases hchunks : load_documents_lazy dir split infer with _ | ⟨d, l⟩
  · rw [hrun, hrun, hchunks]
    simp [chunksOf100, processBatches]
  · rw [hrun, hrun, hchunks]
    rw [hchunks] at h
    rw [chunksOf100_of_ne_nil _ (by simp),
      List.take_of_length_le (by omega), List.drop_eq_nil_of_le (by omega),
      chunksOf100]
    simp [processBatches, incremental_index_idempotent]

/-! ### Claim theorems -/

/-- C4 counterexample: when the underlying file exists and the filesystem
removal raises, `delete_document` propagates the exception instead of
returning the counts dict — so a filesystem failure there IS reflected in
the (missing) return value, refuting the claim as stated.  The vector-store
removal has still happened at that point. -/
theorem c4_unlink_failure_counterexample :
    (delete_document "a.txt" ⟨false, false, true, true⟩
       ⟨[⟨("x", "a.txt"), "a.txt", "x"⟩], [⟨("x", "a.txt"), "a.txt"⟩]⟩).1 =
      .error ()
    ∧ (delete_document "a.txt" ⟨false, false, true, true⟩
        ⟨[⟨("x", "a.txt"), "a.txt", "x"⟩], [⟨("x", "a.txt"), "a.txt"⟩]⟩).2.vs =
      [] := by
  constructor <;> rfl

/-- C4 (amended): a record-manager failure is caught and never undoes the
vector-store removal already performed — the final vector store always
equals the one a failure-free run produces, and the counts are still
returned whenever the filesystem stage does not raise; an absent file is
not an error, but an exception from the filesystem removal itself
propagates out of `delete_document` (no counts returned, the store
mutations stand). -/
theorem c4_failure_isolation (filename : String) (fl : DeleteFlags)
    (st : SysState) :
    ((delete_document filename fl st).2.vs =
      (delete_document filename ⟨false, false, false, false⟩ st).2.vs)
    ∧ (fl.fileExists = false ∨ fl.unlinkFails = false →
        (delete_document filename fl st).1 =
          .ok ⟨(st.vs.filter (fun e => e.source == filename)).length,
               if fl.listKeysFails then 0
               else (st.rm.filter (fun r => r.group == filename)).length⟩)
    ∧ (fl.fileExists = true → fl.unlinkFails = true →
        (delete_document filename fl st).1 = .error ()) := by
  refine ⟨?_, ?_, ?_⟩
  · unfold delete_document
    dsimp only
    split <;> split <;> rfl
  · intro h3
    have hfu : (fl.fileExists && fl.unlinkFails) = false := by
      rcases h3 with h | h <;> simp [h]
    unfold delete_document
    dsimp only
    rw [hfu]
    simp only [Bool.false_eq_true, if_false]
    by_cases h1 : fl.listKeysFails = true
    · simp [h1]
    · simp only [Bool.not_eq_true] at h1
      simp only [h1, Bool.false_eq_true, if_false, List.length_map]
      by_cases hke :
          ((st.rm.filter (fun r => r.group == filename)).map (·.key)).isEmpty = true
      · have hrnil : st.rm.filter (fun r => r.group == filename) = [] :=
          List.map_eq_nil_iff.mp (List.isEmpty_iff.mp hke)
        simp [hke, hrnil]
      · simp only [hke, Bool.false_eq_true, if_false]
        split <;> simp [List.length_map]
  · intro hfe huf
    unfold delete_document
    dsimp only
    rw [hfe, huf]
    rfl

/-- Closed instance of `c4_failure_isolation`: a `list_keys` failure still
returns counts (records count 0) and leaves the vector-store removal in
place. -/
theorem c4_failure_isolation_witness :
    (delete_document "a.txt" ⟨true, false, false, false⟩
       ⟨[⟨("x", "a.txt"), "a.txt", "x"⟩], [⟨("x", "a.txt"), "a.txt"⟩]⟩).2.vs =
      (delete_document "a.txt" ⟨false, false, false, false⟩
        ⟨[⟨("x", "a.txt"), "a.txt", "x"⟩], [⟨("x", "a.txt"), "a.txt"⟩]⟩).2.vs
    ∧ (delete_document "a.txt" ⟨true, false, false, false⟩
        ⟨[⟨("x", "a.txt"), "a.txt", "x"⟩], [⟨("x", "a.txt"), "a.txt"⟩]⟩).1 =
      .ok ⟨1, 0⟩ :=
  ⟨(c4_failure_isolation "a.txt" ⟨true, false, false, false⟩
      ⟨[⟨("x", "a.txt"), "a.txt", "x"⟩], [⟨("x", "a.txt"), "a.txt"⟩]⟩).1,
   (c4_failure_isolation "a.txt" ⟨true, false, false, false⟩
      ⟨[⟨("x", "a.txt"), "a.txt", "x"⟩], [⟨("x", "a.txt"), "a.txt"⟩]⟩).2.1
     (Or.inl rfl)⟩

/-- C3: with the stores well-formed and no collaborator failure,
`delete_document` removes exactly the vector entries whose `source`
metadata equals the filename and exactly the records grouped under it —
every other entry and record is left verbatim — and returns their
counts. -/
theorem c3_delete_scoping (filename : String) (fl : DeleteFlags)
    (st : SysState) (hwf : WfState st) (h1 : fl.listKeysFails = false)
    (h2 : fl.deleteKeysFails = false)
    (h3 : fl.fileExists = false ∨ fl.unlinkFails = false) :
    delete_document filename fl st =
      (.ok ⟨(st.vs.filter (fun e => e.source == filename)).length,
            (st.rm.filter (fun r => r.group == filename)).length⟩,
       ⟨st.vs.filter (fun e => !(e.source == filename)),
        st.rm.filter (fun r => !(r.group == filename))⟩) := by
  obtain ⟨hwfv, hwfr⟩ := hwf
  have hV : ∀ e ∈ st.vs,
      ((st.vs.filter (fun e => e.source == filename)).map (·.id)).contains e.id
        = (e.source == filename) :=
    filter_map_contains st.vs _ _ (by
      intro a ha b hb hab
      simp only [hwfv a ha, hwfv b hb, hab])
  have hR : ∀ r ∈ st.rm,
      ((st.rm.filter (fun r => r.group == filename)).map (·.key)).contains r.key
        = (r.group == filename) :=
    filter_map_contains st.rm _ _ (by
      intro a ha b hb hab
      simp only [hwfr a ha, hwfr b hb, hab])
  have hfu : (fl.fileExists && fl.unlinkFails) = false := by
    rcases h3 with h | h <;> simp [h]
  by_cases hie : ((st.vs.filter (fun e => e.source == filename)).map (·.id)).isEmpty = true
  · have hnil : st.vs.filter (fun e => e.source == filename) = [] :=
      List.map_eq_nil_iff.mp (List.isEmpty_iff.mp hie)
    by_cases hke : ((st.rm.filter (fun r => r.group == filename)).map (·.key)).isEmpty = true
    · have hrnil : st.rm.filter (fun r => r.group == filename) = [] :=
        List.map_eq_nil_iff.mp (List.isEmpty_iff.mp hke)
      simp [delete_document, h1, hie, hke, hfu, hnil, hrnil,
        filter_not_eq_self_of_filter_nil st.vs _ hnil,
        filter_not_eq_self_of_filter_nil st.rm _ hrnil]
    · simp only [delete_document, h1, hie, hke, hfu, Bool.false_eq_true,
        if_false, if_true, Bool.and_self]
      simp only [h2, Bool.false_eq_true, if_false]
      rw [List.filter_congr (fun r hr => congrArg (! ·) (hR r hr))]
      simp [hnil, filter_not_eq_self_of_filter_nil st.vs _ hnil, List.length_map]
  · by_cases hke : ((st.rm.filter (fun r => r.group == filename)).map (·.key)).isEmpty = true
    · have hrnil : st.rm.filter (fun r => r.group == filename) = [] :=
        List.map_eq_nil_iff.mp (List.isEmpty_iff.mp hke)
      simp only [delete_document, h1, hie, hke, hfu, Bool.false_eq_true,
        if_false, if_true]
      rw [List.filter_congr (fun e he => congrArg (! ·) (hV e he))]
      simp [hrnil, filter_not_eq_self_of_filter_nil st.rm _ hrnil, List.length_map]
    · simp only [delete_document, h1, hie, hke, hfu, Bool.false_eq_true,
        if_false, if_true]
      simp only [h2, Bool.false_eq_true, if_false]
      rw [List.filter_congr (fun e he => congrArg (! ·) (hV e he)),
        List.filter_congr (fun r hr => congrArg (! ·) (hR r hr))]
      simp [List.length_map]

/-- Closed instance of `c3_delete_scoping`: deleting `a.txt` from a store
holding two sources removes exactly the `a.txt` vector and record. -/
theorem c3_delete_scoping_witness :
    delete_document "a.txt" ⟨false, false, false, false⟩
      ⟨[⟨("x", "a.txt"), "a.txt", "x"⟩, ⟨("y", "b.txt"), "b.txt", "y"⟩],
       [⟨("x", "a.txt"), "a.txt"⟩, ⟨("y", "b.txt"), "b.txt"⟩]⟩ =
      (.ok ⟨1, 1⟩,
       ⟨[⟨("y", "b.txt"), "b.txt", "y"⟩], [⟨("y", "b.txt"), "b.txt"⟩]⟩) := by
  have h := c3_delete_scoping "a.txt" ⟨false, false, false, false⟩
    ⟨[⟨("x", "a.txt"), "a.txt", "x"⟩, ⟨("y", "b.txt"), "b.txt", "y"⟩],
     [⟨("x", "a.txt"), "a.txt"⟩, ⟨("y", "b.txt"), "b.txt"⟩]⟩
    (by decide) rfl rfl (Or.inl rfl)
  exact h

/-- C7: every chunk yielded by `load_documents_lazy` originates from a
directory entry through the stamping loop; its `source` metadata equals
that file's name, which is never empty (only names with a registered
extension reach the loader), and a chunk lacking page metadata after
splitting carries page 0. -/
theorem c7_chunk_metadata_invariant (files : List FsFile)
    (split : List Doc → List Doc) (infer : String → String × String)
    (c : Doc) (hc : c ∈ load_documents_lazy (some files) split infer) :
    ∃ f ∈ files, f.name ≠ ""
      ∧ metaGet c.metadata "source" = some (.str f.name)
      ∧ ∃ c0 ft ca cat dept, c = stampChunk f.name ft ca cat dept c0
        ∧ (metaGet c0.metadata "page" = none →
            metaGet c.metadata "page" = some (.num 0)) := by
  unfold load_documents_lazy at hc
  obtain ⟨f, hfs, hcf⟩ := List.mem_flatMap.mp hc
  refine ⟨f, (mem_sortFiles f files).mp hfs, ?_⟩
  by_cases hg : (f.isDir || !(LOADER_EXTS.contains (strLower (pathSuffix f.name)))) = true
  · rw [if_pos hg] at hcf
    exact absurd hcf (List.not_mem_nil c)
  · rw [if_neg hg] at hcf
    simp only [Bool.or_eq_true, Bool.not_eq_true', not_or] at hg
    obtain ⟨-, hext⟩ := hg
    have hmem : strLower (pathSuffix f.name) ∈ LOADER_EXTS :=
      (list_contains_iff _ _).mp (by simpa using hext)
    have hname : f.name ≠ "" := by
      intro hemp
      rw [hemp] at hmem
      exact absurd hmem (by decide)
    cases hload : f.loadResult with
    | error e =>
      rw [hload] at hcf
      exact absurd hcf (List.not_mem_nil c)
    | ok docs =>
      rw [hload] at hcf
      obtain ⟨c0, hc0, heq⟩ := List.mem_map.mp hcf
      refine ⟨hname, ?_, c0, _, _, _, _, heq.symm, ?_⟩
      · rw [← heq]
        exact stampChunk_source _ _ _ _ _ _
      · intro hpage
        rw [← heq]
        exact stampChunk_page_default _ _ _ _ _ _ hpage

/-- Closed instance of `c7_chunk_metadata_invariant` at a one-file,
one-chunk directory. -/
theorem c7_chunk_metadata_invariant_witness :
    ∃ f ∈ [(⟨"a.txt", false, "t0", .ok [⟨"hi", []⟩]⟩ : FsFile)], f.name ≠ ""
      ∧ metaGet [("source", MetaVal.str "a.txt"), ("page", MetaVal.num 0),
          ("file_type", MetaVal.str ".txt"), ("created_at", MetaVal.str "t0"),
          ("category", MetaVal.str "cat"), ("department", MetaVal.str "dep")]
          "source" = some (.str f.name)
      ∧ ∃ c0 ft ca cat dept,
          (⟨"hi", [("source", MetaVal.str "a.txt"), ("page", MetaVal.num 0),
            ("file_type", MetaVal.str ".txt"), ("created_at", MetaVal.str "t0"),
            ("category", MetaVal.str "cat"),
            ("department", MetaVal.str "dep")]⟩ : Doc) =
            stampChunk f.name ft ca cat dept c0
        ∧ (metaGet c0.metadata "page" = none →
            metaGet [("source", MetaVal.str "a.txt"), ("page", MetaVal.num 0),
              ("file_type", MetaVal.str ".txt"), ("created_at", MetaVal.str "t0"),
              ("category", MetaVal.str "cat"), ("department", MetaVal.str "dep")]
              "page" = some (.num 0)) :=
  c7_chunk_metadata_invariant [⟨"a.txt", false, "t0", .ok [⟨"hi", []⟩]⟩]
    id (fun _ => ("cat", "dep"))
    ⟨"hi", [("source", .str "a.txt"), ("page", .num 0),
      ("file_type", .str ".txt"), ("created_at", .str "t0"),
      ("category", .str "cat"), ("department", .str "dep")]⟩
    (by decide)

/-- C1: a failing incremental index step is absorbed and counted, never
propagated: every run of `run_indexing` submits all the 100-chunk batches
of its stream (one outcome per batch), and returns exactly
`{total_indexed := sum of num_added + num_updated over the successful
batches, errors := number of failed batches}`. -/
theorem c1_batch_failure_isolation (dir : Option (List FsFile))
    (split : List Doc → List Doc) (infer : String → String × String)
    (step : IndexStep) (st : SysState) :
    (run_indexing dir split infer step st).1 =
      ⟨okTotal (batchOutcomes step
          (chunksOf100 (load_documents_lazy dir split infer)) st),
        failCount (batchOutcomes step
          (chunksOf100 (load_documents_lazy dir split infer)) st)⟩
    ∧ (batchOutcomes step
        (chunksOf100 (load_documents_lazy dir split infer)) st).length =
      (chunksOf100 (load_documents_lazy dir split infer)).length := by
  constructor
  · unfold run_indexing run_indexing_chunks
    rw [show load_documents_lazy dir split infer =
        [] ++ load_documents_lazy dir split infer from rfl,
      run_indexing_loop_eq_processBatches step _ [] st 0 0 (by simp),
      processBatches_spec]
    simp
  · exact batchOutcomes_length step _ st

/-- C5 failing input: a directory with one file whose chunks number 101,
so its chunk stream spans two batches. -/
def c5Docs : List Doc := (List.range 101).map (fun i => ⟨toString i, []⟩)

/-- The single-file directory for the C5 failing input. -/
def c5Files : List FsFile := [⟨"a.txt", false, "2024-01-01T00:00:00", .ok c5Docs⟩]

/-- The incremental index collaborator with no injected failures. -/
def c5Step : IndexStep := fun b st => .ok (incremental_index b st)

/-- A metadata inference collaborator returning the defaults. -/
def c5Infer : String → String × String := fun _ => ("その他", "全社共通")

set_option maxRecDepth 100000 in
/-- C5 evaluated at the failing input: re-running `run_indexing` over the
unchanged 101-chunk directory is NOT a no-op — the second run reports
`total_indexed = 101`, not 0, because each batch's incremental cleanup
deletes the source's keys that live in the other batch (the first run even
ends with only 1 of the 101 vectors still stored). -/
theorem c5_idempotence_fails_across_batches :
    (run_indexing (some c5Files) id c5Infer c5Step
        (run_indexing (some c5Files) id c5Infer c5Step ⟨[], []⟩).2).1.total_indexed
      = 101
    ∧ (run_indexing (some c5Files) id c5Infer c5Step
        (run_indexing (some c5Files) id c5Infer c5Step ⟨[], []⟩).2).1.total_indexed
      ≠ 0
    ∧ (run_indexing (some c5Files) id c5Infer c5Step ⟨[], []⟩).2.vs.length = 1 := by
  refine ⟨by decide, by decide, by decide⟩

/-- C6: a metadata filter with exactly one entry becomes that single
equality condition passed through unchanged (not wrapped in a conjunction);
two or more entries combine under `$and`, one equality condition per entry;
and `retrieve_documents` hands the built filter to the similarity search. -/
theorem c6_filter_construction (f : String) (v : MetaVal)
    (m : List (String × MetaVal))
    (search : String → Nat → Option ChromaWhere → Except Unit (List Doc))
    (question : String) (k : Nat) (mf : Option (List (String × MetaVal))) :
    build_chroma_filter (some [(f, v)]) = some (.eq f v)
    ∧ (2 ≤ m.length →
        build_chroma_filter (some m) =
          some (.and (m.map (fun kv => ChromaWhere.eq kv.1 kv.2))))
    ∧ retrieve_documents search question k mf =
        search question k (build_chroma_filter mf) := by
  refine ⟨rfl, ?_, rfl⟩
  intro h
  rcases m with _ | ⟨a, _ | ⟨b, rest⟩⟩
  · simp at h
  · simp at h
  · rfl

/-- Closed instance of `c6_filter_construction`: the two filter shapes at
concrete inputs. -/
theorem c6_filter_construction_witness :
    build_chroma_filter (some [("department", .str "General")]) =
      some (.eq "department" (.str "General"))
    ∧ build_chroma_filter (some [("a", .num 1), ("b", .num 2)]) =
      some (.and [.eq "a" (.num 1), .eq "b" (.num 2)]) :=
  ⟨(c6_filter_construction "department" (.str "General") []
      (fun _ _ _ => .ok []) "" 0 none).1,
   (c6_filter_construction "a" (.num 1) [("a", .num 1), ("b", .num 2)]
      (fun _ _ _ => .ok []) "" 0 none).2.1 (by decide)⟩

/-- C9: the empty metadata filter behaves exactly like no filter at all:
`build_chroma_filter` maps both `None` and `{}` to no filter, so
`retrieve_documents` runs the same unrestricted search for both. -/
theorem c9_empty_filter_like_none
    (search : String → Nat → Option ChromaWhere → Except Unit (List Doc))
    (question : String) (k : Nat) :
    build_chroma_filter none = none
    ∧ build_chroma_filter (some []) = none
    ∧ retrieve_documents search question k (some []) =
        retrieve_documents search question k none
    ∧ retrieve_documents search question k (some []) = search question k none :=
  ⟨rfl, rfl, rfl, rfl⟩

/-- C10: a missing target directory makes `load_documents_lazy` yield no
chunks instead of raising, and `run_indexing` over it returns
`{total_indexed: 0, errors: 0}` leaving the stores untouched. -/
theorem c10_missing_directory (split : List Doc → List Doc)
    (infer : String → String × String) (step : IndexStep) (st : SysState) :
    load_documents_lazy none split infer = []
    ∧ run_indexing none split infer step st = (⟨0, 0⟩, st) :=
  ⟨rfl, rfl⟩

/-- C2: any exception during retrieval or during generation makes the
stream yield exactly one sentinel error fragment — after the fragments
already emitted — and then end; `generate_answer_stream` itself is total,
so the exception never propagates past it. -/
theorem c2_stream_failure_sentinel (question : String) (k : Nat)
    (mf : Option (List (String × MetaVal)))
    (search : String → Nat → Option ChromaWhere → Except Unit (List Doc))
    (llm : List Msg → List GenEvent) (docs : List Doc)
    (pre post : List GenEvent) :
    (retrieve_documents search question k mf = .error () →
      generate_answer_stream question k mf search llm = [errorSentinel])
    ∧ (retrieve_documents search question k mf = .ok docs →
        llm [⟨"system", systemPrompt (formatContext docs)⟩, ⟨"user", question⟩] =
          pre ++ .genFail :: post →
        GenEvent.genFail ∉ pre →
        generate_answer_stream question k mf search llm =
          tokensOf pre ++ [errorSentinel]) := by
  constructor
  · intro h
    unfold generate_answer_stream
    rw [h]
  · intro hret hllm hpre
    unfold generate_answer_stream
    rw [hret]
    simp only
    rw [hllm, consumeStream_fail pre post hpre]

/-- Closed instance of `c2_stream_failure_sentinel`: a stream that fails
after one fragment ends with exactly the sentinel appended. -/
theorem c2_stream_failure_sentinel_witness :
    generate_answer_stream "q" 4 none (fun _ _ _ => .ok [])
      (fun _ => [.token "partial ", .genFail]) =
      ["partial ", errorSentinel] :=
  (c2_stream_failure_sentinel "q" 4 none (fun _ _ _ => .ok [])
    (fun _ => [.token "partial ", .genFail]) [] [.token "partial "] []).2
    rfl rfl (by decide)

/-- C8: a delete request whose filename resolves outside the data directory
is answered with the 400 client error before any mutation:
`delete_document` is never invoked and the stores are unchanged. -/
theorem c8_path_traversal_rejected (dataDir : List String) (filename : String)
    (fl : DeleteFlags) (fileOnDisk : Bool) (st : SysState)
    (h : (resolvePath dataDir).isPrefixOf
        (resolvePath (dataDir ++ splitOnChar '/' filename)) = false) :
    delete_document_endpoint dataDir filename fl fileOnDisk st =
      ⟨.clientError 400, st, false⟩ := by
  have hne : (resolvePath (dataDir ++ splitOnChar '/' filename)).dropLast ≠
      resolvePath dataDir := by
    intro heq
    by_cases hL : resolvePath (dataDir ++ splitOnChar '/' filename) = []
    · rw [hL] at heq
      rw [hL, ← heq] at h
      simp [List.isPrefixOf] at h
    · have hsplit : resolvePath (dataDir ++ splitOnChar '/' filename) =
          resolvePath dataDir ++
            [(resolvePath (dataDir ++ splitOnChar '/' filename)).getLast hL] := by
        rw [← heq]
        exact (List.dropLast_append_getLast hL).symm
      rw [hsplit, isPrefixOf_append_self] at h
      exact Bool.true_eq_false.mp h
  unfold delete_document_endpoint
  rw [if_pos hne]

/-- Closed instance of `c8_path_traversal_rejected`: `../secret.txt` under
data directory `/app/data` is rejected without touching a populated
store. -/
theorem c8_path_traversal_rejected_witness :
    delete_document_endpoint ["app", "data"] "../secret.txt"
      ⟨false, false, true, false⟩ true
      ⟨[⟨("x", "secret.txt"), "secret.txt", "x"⟩],
       [⟨("x", "secret.txt"), "secret.txt"⟩]⟩ =
      ⟨.clientError 400,
       ⟨[⟨("x", "secret.txt"), "secret.txt", "x"⟩],
        [⟨("x", "secret.txt"), "secret.txt"⟩]⟩, false⟩ :=
  c8_path_traversal_rejected ["app", "data"] "../secret.txt"
    ⟨false, false, true, false⟩ true
    ⟨[⟨("x", "secret.txt"), "secret.txt", "x"⟩],
     [⟨("x", "secret.txt"), "secret.txt"⟩]⟩ (by decide)

end RagBackend
